import Mathlib

/-!
Verification of the session-lifecycle and resource-cache/diff subsystem of the
fmu-settings-api backend, as a shallow embedding of the Python sources.

Python dictionaries keyed by strings are embedded as association lists with at
most one binding per key; dictionary get/set/del become `lookupAssoc`,
`storeAssoc` and `eraseAssoc`.  Timestamps (`datetime` values compared with `<`)
are embedded as integers.  Opaque handles (`UserFMUDirectory`,
`ProjectFMUDirectory`) are embedded as natural numbers, since the core only
stores and compares them.
-/

/-- Dictionary read (`dict.get(key, None)`). -/
def lookupAssoc {β : Type} : List (String × β) → String → Option β
  | [], _ => none
  | (k, v) :: rest, key => if k = key then some v else lookupAssoc rest key

/-- Dictionary write (`d[key] = v`): replaces an existing binding, otherwise
appends a new one. -/
def storeAssoc {β : Type} : List (String × β) → String → β → List (String × β)
  | [], key, v => [(key, v)]
  | (k, w) :: rest, key, v =>
      if k = key then (k, v) :: rest else (k, w) :: storeAssoc rest key v

/-- Dictionary delete (`del d[key]`).  A Python dict holds at most one binding
per key; removing every binding with the key is the same operation there. -/
def eraseAssoc {β : Type} : List (String × β) → String → List (String × β)
  | [], _ => []
  | (k, v) :: rest, key =>
      if k = key then eraseAssoc rest key else (k, v) :: eraseAssoc rest key

theorem lookupAssoc_eraseAssoc_self {β : Type} (l : List (String × β))
    (key : String) : lookupAssoc (eraseAssoc l key) key = none := by
  induction l with
  | nil => rfl
  | cons hd tl ih =>
      obtain ⟨k, v⟩ := hd
      by_cases h : k = key
      · simp [eraseAssoc, h, ih]
      · simp [eraseAssoc, lookupAssoc, h, ih]

theorem lookupAssoc_storeAssoc_self {β : Type} (l : List (String × β))
    (key : String) (v : β) : lookupAssoc (storeAssoc l key v) key = some v := by
  induction l with
  | nil => simp [storeAssoc, lookupAssoc]
  | cons hd tl ih =>
      obtain ⟨k, w⟩ := hd
      by_cases h : k = key
      · simp [storeAssoc, h, lookupAssoc]
      · simp [storeAssoc, lookupAssoc, h, ih]

/-! ## Session manager (src/fmu_settings_api/session.py)

`Session` is a dataclass with an id, an opaque user-directory handle and three
timestamps.  `ProjectSession` subclasses `Session`, adding the opaque
project-directory handle.  The storage maps session ids to either kind of
record, embedded as a two-constructor sum. -/

/-- The `Session` dataclass. -/
structure Session where
  id : String
  userFmuDirectory : Nat
  createdAt : Int
  expiresAt : Int
  lastAccessed : Int
deriving DecidableEq

/-- A stored record: either a plain `Session` or a `ProjectSession`
(a `Session` subclass carrying a `project_fmu_directory` handle). -/
inductive StoredSession where
  | plain (s : Session)
  | project (s : Session) (projectFmuDirectory : Nat)
deriving DecidableEq

/-- The `Session` fields shared by both record kinds. -/
def StoredSession.base : StoredSession → Session
  | .plain s => s
  | .project s _ => s

/-- The `expires_at` field of the stored record. -/
def StoredSession.expiresAt (s : StoredSession) : Int := s.base.expiresAt

/-- Assignment `session.last_accessed = now` on either record kind. -/
def StoredSession.withLastAccessed : StoredSession → Int → StoredSession
  | .plain s, now => .plain { s with lastAccessed := now }
  | .project s p, now => .project { s with lastAccessed := now } p

/-- Python's `isinstance(x, Session)`: true for both record kinds, because
`ProjectSession` subclasses `Session`. -/
def isinstanceSession : StoredSession → Bool
  | .plain _ => true
  | .project _ _ => true

/-- Python's `isinstance(x, ProjectSession)`: true only for project records. -/
def isinstanceProjectSession : StoredSession → Bool
  | .plain _ => false
  | .project _ _ => true

/-- The session manager's dictionary backend. -/
abbrev Storage := List (String × StoredSession)

/-- Operations performed on an external `ProjectLock` capability.  Functions of
the session module also return the list of lock operations their bodies
perform, so that the presence or absence of lock interaction is part of the
embedded behaviour. -/
inductive LockOp where
  | acquire
  | release
deriving DecidableEq

/-- `SessionManager.destroy_session`: retrieve the record and, when present,
delete it from the storage.  The body performs no `ProjectLock` operation of
any kind, so the returned trace is empty on every path. -/
def destroySession (st : Storage) (sessionId : String) : Storage × List LockOp :=
  match lookupAssoc st sessionId with
  | none => (st, [])
  | some _ => (eraseAssoc st sessionId, [])

/-- `SessionManager.get_session`: retrieve the record; absent gives `None`;
an expired record (`session.expires_at < now`) is destroyed and `None` is
returned; otherwise `last_accessed` is refreshed, the record is stored back and
returned. -/
def getSession (st : Storage) (sessionId : String) (now : Int) :
    Option StoredSession × Storage :=
  match lookupAssoc st sessionId with
  | none => (none, st)
  | some session =>
      if session.expiresAt < now then
        (none, (destroySession st sessionId).1)
      else
        let s2 := session.withLastAccessed now
        (some s2, storeAssoc st sessionId s2)

/-- Errors raised by the module-level session helpers. -/
inductive SessionErr where
  | sessionNotFound
  | typeError
deriving DecidableEq

/-- `remove_fmu_project_from_session`: get the session (raising
`SessionNotFoundError` when absent); then `isinstance(maybe_project_session,
Session)` is checked and, when it holds, the record is returned unchanged.
Because `ProjectSession` subclasses `Session` this check holds for every stored
record, so the remaining lines are unreachable; on them, `Session(**asdict(x))`
succeeds for a plain record and raises `TypeError` for a project record (the
dictionary then carries the extra `project_fmu_directory` key). -/
def removeFmuProjectFromSession (st : Storage) (sessionId : String) (now : Int) :
    Except SessionErr (StoredSession × Storage) :=
  match getSession st sessionId now with
  | (none, _) => .error .sessionNotFound
  | (some s, st1) =>
      if isinstanceSession s then .ok (s, st1)
      else
        match s with
        | .plain s0 => .ok (.plain s0, storeAssoc st1 sessionId (.plain s0))
        | .project _ _ => .error .typeError

/-- Claim C1: a stored session whose `expires_at` lies strictly before the
current time is absent from `get_session`'s result, and the id has been removed
from the storage: the expiry check is lazy and destroys the record. -/
theorem c1_get_session_expired_destroys (st : Storage) (sessionId : String)
    (s : StoredSession) (now : Int)
    (hstored : lookupAssoc st sessionId = some s)
    (hexpired : s.expiresAt < now) :
    (getSession st sessionId now).1 = none ∧
      lookupAssoc (getSession st sessionId now).2 sessionId = none := by
  simp only [getSession, hstored, if_pos hexpired, destroySession]
  exact ⟨trivial, lookupAssoc_eraseAssoc_self st sessionId⟩

/-- The expired session used as concrete input for the C1 witness. -/
def sessA : Session :=
  { id := "sid0", userFmuDirectory := 0, createdAt := 0, expiresAt := 10,
    lastAccessed := 0 }

/-- A storage holding only `sessA` as a plain session. -/
def stPlain : Storage := [("sid0", .plain sessA)]

/-- A storage holding only `sessA` as a project session. -/
def stProj : Storage := [("sid0", .project sessA 7)]

/-- Witness for C1: at time 11 the session expiring at 10 is gone. -/
theorem c1_witness :
    (getSession stPlain "sid0" 11).1 = none ∧
      lookupAssoc (getSession stPlain "sid0" 11).2 "sid0" = none :=
  c1_get_session_expired_destroys stPlain "sid0" (.plain sessA) 11 (by decide)
    (by decide)

/-- Claim C9: a `get_session` call at an instant less than or exactly equal to
`expires_at` returns the record (with `last_accessed` refreshed) and leaves it
stored: expiry requires the current time to be strictly greater than
`expires_at`. -/
theorem c9_get_session_boundary_not_expired (st : Storage) (sessionId : String)
    (s : StoredSession) (now : Int)
    (hstored : lookupAssoc st sessionId = some s)
    (hnotpast : now ≤ s.expiresAt) :
    (getSession st sessionId now).1 = some (s.withLastAccessed now) ∧
      lookupAssoc (getSession st sessionId now).2 sessionId =
        some (s.withLastAccessed now) := by
  simp only [getSession, hstored, if_neg (not_lt.mpr hnotpast)]
  exact ⟨trivial, lookupAssoc_storeAssoc_self st sessionId _⟩

/-- Witness for C9: a call exactly at the expiry instant (time 10) still
returns the session and keeps it stored. -/
theorem c9_witness :
    (getSession stPlain "sid0" 10).1 =
        some ((StoredSession.plain sessA).withLastAccessed 10) ∧
      lookupAssoc (getSession stPlain "sid0" 10).2 "sid0" =
        some ((StoredSession.plain sessA).withLastAccessed 10) :=
  c9_get_session_boundary_not_expired stPlain "sid0" (.plain sessA) 10
    (by decide) (by decide)

/-- Claim C2 (code evaluated at the failing input): on a live `ProjectSession`,
`remove_fmu_project_from_session` returns and stores a record that is still a
`ProjectSession`.  The `isinstance(maybe_project_session, Session)` early
return always fires, because `ProjectSession` subclasses `Session`, so the
downgrade to a plain `Session` never happens. -/
theorem c2_detach_keeps_project_session :
    removeFmuProjectFromSession stProj "sid0" 5 =
      .ok (.project { sessA with lastAccessed := 5 } 7,
           [("sid0", .project { sessA with lastAccessed := 5 } 7)]) ∧
      isinstanceProjectSession
        (.project { sessA with lastAccessed := 5 } 7) = true := by
  constructor
  · rfl
  · rfl

/-- Claim C3 (code evaluated at the failing input): `destroy_session` on a
storage holding a `ProjectSession` removes the record but performs no
`ProjectLock` operation at all — in particular no release — as witnessed by the
empty lock-operation trace. -/
theorem c3_destroy_no_lock_release :
    destroySession stProj "sid0" = ([], []) ∧
      lookupAssoc stProj "sid0" = some (.project sessA 7) := by
  constructor
  · rfl
  · rfl

/-! ## Diff engine (src/fmu_settings_api/services/resource.py)

`ResourceService._build_list_diff` receives the current and selected values of
a list-of-records field together with the declared key extractor.  The source
extracts keys by `getattr(item, key_field)` (or a canonical full-content dump
for the `__full__` sentinel); the embedding abstracts both as a function from
records to strings.  Python dict comprehensions keep, for a repeated key, the
last item of the list; `dictLookup` mirrors that lookup semantics. -/

/-- An `updated` entry of a list diff: key, before and after records. -/
structure UpdatedEntry (α : Type) where
  key : String
  before : α
  after : α
deriving DecidableEq

/-- The value `_build_list_diff` returns: the three change sets. -/
structure ListDiff (α : Type) where
  added : List α
  removed : List α
  updated : List (UpdatedEntry α)
deriving DecidableEq

/-- Code-point comparison of strings, as Python compares them: strict
lexicographic order on the character sequences. -/
def strLtChars : List Char → List Char → Bool
  | [], [] => false
  | [], _ :: _ => true
  | _ :: _, [] => false
  | a :: as, b :: bs =>
      if a.toNat < b.toNat then true
      else if b.toNat < a.toNat then false
      else strLtChars as bs

/-- Non-strict string comparison used by the sort. -/
def strLe (a b : String) : Bool := !(strLtChars b.toList a.toList)

/-- Insertion of a string into an ascending list. -/
def insertSorted (key : String) : List String → List String
  | [] => [key]
  | a :: t => if strLe key a then key :: a :: t else a :: insertSorted key t

/-- Python's `sorted` over strings: ascending insertion sort. -/
def sortStrings (l : List String) : List String := l.foldr insertSorted []

/-- Lookup in `{_get_key(item): item for item in items}`: the last item of the
list carrying the key (later items shadow earlier ones). -/
def dictLookup {α : Type} (k : α → String) : List α → String → Option α
  | [], _ => none
  | it :: rest, key =>
      match dictLookup k rest key with
      | some r => some r
      | none => if k it = key then some it else none

/-- `ResourceService._build_list_diff`.  `added` filters the selected items
whose key is not among the current keys (source order); `removed` dually;
`updated` walks the sorted intersection of the key sets and keeps the keys
whose two mapped records differ.  The key set of a dict comprehension over
`items` is the image of the key extractor over `items`. -/
def buildListDiff {α : Type} [DecidableEq α] (k : α → String)
    (currentItems selectedItems : List α) : ListDiff α :=
  let currentKeys := currentItems.map k
  let selectedKeys := selectedItems.map k
  let added := selectedItems.filter (fun it => decide (k it ∉ currentKeys))
  let removed := currentItems.filter (fun it => decide (k it ∉ selectedKeys))
  let interSorted :=
    sortStrings (currentKeys.dedup.filter (fun s => decide (s ∈ selectedKeys)))
  let updated := interSorted.filterMap (fun key =>
    match dictLookup k currentItems key, dictLookup k selectedItems key with
    | some c, some s => if c ≠ s then some ⟨key, c, s⟩ else none
    | _, _ => none)
  ⟨added, removed, updated⟩

/-- The list diff in the words of the specification: `added` and `removed` are
the records of one list whose key is absent from the other, in source order;
`updated` pairs, for each key present in both (in string order), the current
record with the selected record when they differ. -/
def specListDiff {α : Type} [DecidableEq α] (k : α → String)
    (currentItems selectedItems : List α) : ListDiff α :=
  { added := selectedItems.filter (fun it => decide (k it ∉ currentItems.map k)),
    removed := currentItems.filter (fun it => decide (k it ∉ selectedItems.map k)),
    updated :=
      (sortStrings
          ((currentItems.map k).dedup.filter
            (fun s => decide (s ∈ selectedItems.map k)))).filterMap
        (fun key =>
          match currentItems.find? (fun it => decide (k it = key)),
              selectedItems.find? (fun it => decide (k it = key)) with
          | some c, some s => if c ≠ s then some ⟨key, c, s⟩ else none
          | _, _ => none) }

theorem dictLookup_eq_none {α : Type} (k : α → String) (items : List α)
    (key : String) (h : ∀ it ∈ items, k it ≠ key) :
    dictLookup k items key = none := by
  induction items with
  | nil => rfl
  | cons a t ih =>
      have ht : dictLookup k t key = none :=
        ih (fun it hit => h it (List.mem_cons_of_mem a hit))
      simp [dictLookup, ht, h a (List.mem_cons_self a t)]

theorem dictLookup_eq_find? {α : Type} (k : α → String) (items : List α)
    (key : String) (h : (items.map k).Nodup) :
    dictLookup k items key = items.find? (fun it => decide (k it = key)) := by
  induction items with
  | nil => rfl
  | cons a t ih =>
      rw [List.map_cons, List.nodup_cons] at h
      obtain ⟨hnotin, hnd⟩ := h
      by_cases hak : k a = key
      · have ht : dictLookup k t key = none := by
          refine dictLookup_eq_none k t key (fun it hit hcon => hnotin ?_)
          have hka : k a = k it := by rw [hak, hcon]
          exact hka ▸ List.mem_map_of_mem k hit
        have hpa : decide (k a = key) = true := by simp [hak]
        rw [List.find?_cons, hpa]
        show (match dictLookup k t key with
              | some r => some r
              | none => if k a = key then some a else none) = some a
        rw [ht]
        simp [hak]
      · have hpa : decide (k a = key) = false := by simp [hak]
        rw [List.find?_cons, hpa, ← ih hnd]
        show (match dictLookup k t key with
              | some r => some r
              | none => if k a = key then some a else none) = dictLookup k t key
        cases dictLookup k t key <;> simp [hak]

theorem dictLookup_self {α : Type} (k : α → String) (items : List α) (it : α)
    (h : (items.map k).Nodup) (hmem : it ∈ items) :
    dictLookup k items (k it) = some it := by
  induction items with
  | nil => cases hmem
  | cons a t ih =>
      rw [List.map_cons, List.nodup_cons] at h
      obtain ⟨hnotin, hnd⟩ := h
      rcases List.mem_cons.mp hmem with heq | hmemt
      · subst heq
        have ht : dictLookup k t (k it) = none := by
          refine dictLookup_eq_none k t (k it) (fun x hx hcon => ?_)
          exact hnotin (hcon ▸ List.mem_map_of_mem k hx)
        simp [dictLookup, ht]
      · simp [dictLookup, ih hnd hmemt]

theorem filterMap_ext_fun {β γ : Type} (f g : β → Option γ) (l : List β)
    (h : ∀ x, f x = g x) : l.filterMap f = l.filterMap g := by
  induction l with
  | nil => rfl
  | cons a t ih => simp [List.filterMap_cons, h a, ih]

/-- Claim C5: for keyed record lists whose keys are duplicate-free, the list
diff built by `_build_list_diff` is exactly the specification's description —
`added` and `removed` are the records whose key is missing on the other side,
in source order; `updated` pairs, in string order of keys, the current and
selected records of the keys present in both whose payloads differ — and a
record equal in both lists contributes to none of the three sets. -/
theorem c5_list_diff_matches_spec {α : Type} [DecidableEq α] (k : α → String)
    (currentItems selectedItems : List α)
    (hc : (currentItems.map k).Nodup) (hs : (selectedItems.map k).Nodup) :
    buildListDiff k currentItems selectedItems =
        specListDiff k currentItems selectedItems ∧
      ∀ it, it ∈ currentItems → it ∈ selectedItems →
        it ∉ (buildListDiff k currentItems selectedItems).added ∧
        it ∉ (buildListDiff k currentItems selectedItems).removed ∧
        ∀ u ∈ (buildListDiff k currentItems selectedItems).updated,
          u.key ≠ k it := by
  constructor
  · simp only [buildListDiff, specListDiff, ListDiff.mk.injEq]
    refine ⟨trivial, trivial, ?_⟩
    refine filterMap_ext_fun _ _ _ (fun key => ?_)
    rw [dictLookup_eq_find? k currentItems key hc,
        dictLookup_eq_find? k selectedItems key hs]
  · intro it hic his
    refine ⟨?_, ?_, ?_⟩
    · simp only [buildListDiff]
      intro hmem
      rw [List.mem_filter] at hmem
      obtain ⟨-, hp⟩ := hmem
      rw [decide_eq_true_eq] at hp
      exact hp (List.mem_map_of_mem k hic)
    · simp only [buildListDiff]
      intro hmem
      rw [List.mem_filter] at hmem
      obtain ⟨-, hp⟩ := hmem
      rw [decide_eq_true_eq] at hp
      exact hp (List.mem_map_of_mem k his)
    · intro u hu hku
      simp only [buildListDiff] at hu
      rw [List.mem_filterMap] at hu
      obtain ⟨key, hkey, hfk⟩ := hu
      rcases hdc : dictLookup k currentItems key with _ | c
      · rw [hdc] at hfk
        simp at hfk
      · rcases hds : dictLookup k selectedItems key with _ | s
        · rw [hdc, hds] at hfk
          simp at hfk
        · rw [hdc, hds] at hfk
          by_cases hcs : c = s
          · simp [hcs] at hfk
          · have hfk2 : (if c ≠ s then some (⟨key, c, s⟩ : UpdatedEntry α)
                else none) = some u := hfk
            rw [if_pos hcs] at hfk2
            have hu2 : u = ⟨key, c, s⟩ := by
              injection hfk2 with h2
              exact h2.symm
            have hkeq : key = k it := by rw [← hku, hu2]
            rw [hkeq] at hdc hds
            rw [dictLookup_self k currentItems it hc hic] at hdc
            rw [dictLookup_self k selectedItems it hs his] at hds
            injection hdc with hdc2
            injection hds with hds2
            exact hcs (by rw [← hdc2, ← hds2])

/-- Records with an id and a name, as in the specification's worked list-diff
example. -/
structure Rec where
  id : String
  name : String
deriving DecidableEq

/-- The current list of the specification's worked example. -/
def exCurrent : List Rec := [⟨"1", "A"⟩, ⟨"2", "B"⟩]

/-- The selected list of the specification's worked example. -/
def exSelected : List Rec := [⟨"2", "B2"⟩, ⟨"3", "C"⟩]

/-- Witness for C5: the worked example of the specification, keyed by id,
evaluates to added = [{3, C}], removed = [{1, A}],
updated = [{key 2, before {2, B}, after {2, B2}}]. -/
theorem c5_witness :
    buildListDiff Rec.id exCurrent exSelected =
        specListDiff Rec.id exCurrent exSelected ∧
      buildListDiff Rec.id exCurrent exSelected =
        ⟨[⟨"3", "C"⟩], [⟨"1", "A"⟩], [⟨"2", ⟨"2", "B"⟩, ⟨"2", "B2"⟩⟩]⟩ :=
  ⟨(c5_list_diff_matches_spec Rec.id exCurrent exSelected (by decide)
      (by decide)).1,
   by decide⟩

/-! ## Cache diff (ResourceService.get_cache_diff)

A snapshot of a resource model is embedded as an association list from field
paths to field values; a field value is either an opaque scalar payload or a
list of records.  The two models handed to `get_cache_diff` are instances of
the same resource model class, so they carry the same field paths. -/

/-- A field value of a resource model: an opaque scalar or a record list. -/
inductive FieldValue (α : Type) where
  | scalar (v : String)
  | items (l : List α)
deriving DecidableEq

/-- A resource model snapshot: field path to field value. -/
abbrev Snapshot (α : Type) := List (String × FieldValue α)

/-- Modelled from the spec: the resource manager's `get_model_diff`, provided
by the external fmu.settings library and absent from the sources.  Per the
specification an entry is emitted only when the two values differ under deep
value equality; each change is the triple of field path, current value and
selected value, in field order. -/
def getModelDiff {α : Type} [DecidableEq α] (current selected : Snapshot α) :
    List (String × Option (FieldValue α) × Option (FieldValue α)) :=
  current.filterMap (fun pc =>
    let sv := lookupAssoc selected pc.1
    if some pc.2 = sv then none else some (pc.1, some pc.2, sv))

/-- The `current or []` coercion applied by `_build_list_diff` to the two
field values it receives: an absent value becomes the empty list.  List-keyed
paths hold list values. -/
def toItems {α : Type} : Option (FieldValue α) → List α
  | some (.items l) => l
  | _ => []

/-- An entry of the diff payload built by `get_cache_diff`: either a scalar
before/after change or a keyed list change. -/
inductive DiffEntry (α : Type) where
  | scalarChange (fieldPath : String) (before after : Option (FieldValue α))
  | listChange (fieldPath : String) (d : ListDiff α)
deriving DecidableEq

/-- The field path an entry reports. -/
def DiffEntry.fieldPath {α : Type} : DiffEntry α → String
  | .scalarChange p _ _ => p
  | .listChange p _ => p

/-- `ResourceService.get_cache_diff` over the model-level change list:
a change at a path registered in `_LIST_DIFF_KEYS` becomes a keyed list-change
entry (the source's `if list_diff is not None` guard always holds because
`_build_list_diff` returns a value on every path); any other change becomes a
scalar before/after entry. -/
def getCacheDiff {α : Type} [DecidableEq α]
    (listKeys : String → Option (α → String))
    (current selected : Snapshot α) : List (DiffEntry α) :=
  (getModelDiff current selected).map (fun c =>
    match listKeys c.1 with
    | some k => .listChange c.1 (buildListDiff k (toItems c.2.1) (toItems c.2.2))
    | none => .scalarChange c.1 c.2.1 c.2.2)

theorem lookupAssoc_of_mem_nodup {β : Type} (l : List (String × β))
    (p : String) (v : β) (h : (l.map Prod.fst).Nodup) (hmem : (p, v) ∈ l) :
    lookupAssoc l p = some v := by
  induction l with
  | nil => cases hmem
  | cons hd tl ih =>
      obtain ⟨k, w⟩ := hd
      rw [List.map_cons, List.nodup_cons] at h
      obtain ⟨hnotin, hnd⟩ := h
      rcases List.mem_cons.mp hmem with heq | hmemt
      · obtain ⟨h1, h2⟩ := Prod.mk.injEq .. ▸ heq
        simp [lookupAssoc, h1.symm, h2]
      · have hne : k ≠ p := by
          intro hkp
          have hpin : p ∈ List.map Prod.fst tl :=
            List.mem_map_of_mem Prod.fst hmemt
          exact hnotin (hkp.symm ▸ hpin)
        simp [lookupAssoc, hne, ih hnd hmemt]

theorem filterMap_none {β γ : Type} (f : β → Option γ) (l : List β)
    (h : ∀ x ∈ l, f x = none) : l.filterMap f = [] := by
  induction l with
  | nil => rfl
  | cons a t ih =>
      rw [List.filterMap_cons, h a (List.mem_cons_self a t)]
      exact ih (fun x hx => h x (List.mem_cons_of_mem a hx))

/-- Claim C6, amended: the surviving parts of the sparseness claim.  For every
snapshot the self-diff is empty, and every emitted entry sits at a field whose
current and selected values genuinely differ.  (The further part of the claim —
that no list-change entry ever has all three sets empty — fails; see the
counterexample.) -/
theorem c6_amended_sparse_diff {α : Type} [DecidableEq α]
    (listKeys : String → Option (α → String)) :
    (∀ X : Snapshot α, (X.map Prod.fst).Nodup →
      getCacheDiff listKeys X X = []) ∧
    (∀ C S : Snapshot α, (C.map Prod.fst).Nodup →
      ∀ e ∈ getCacheDiff listKeys C S,
        lookupAssoc C e.fieldPath ≠ lookupAssoc S e.fieldPath) := by
  constructor
  · intro X hX
    have h1 : getModelDiff X X = [] := by
      refine filterMap_none _ _ (fun pc hpc => ?_)
      have hl : lookupAssoc X pc.1 = some pc.2 :=
        lookupAssoc_of_mem_nodup X pc.1 pc.2 hX (by simpa using hpc)
      show (if some pc.2 = lookupAssoc X pc.1 then none
        else some (pc.1, some pc.2, lookupAssoc X pc.1)) = none
      rw [if_pos hl.symm]
    rw [getCacheDiff, h1]
    rfl
  · intro C S hC e he
    rw [getCacheDiff, List.mem_map] at he
    obtain ⟨c, hcmem, hgc⟩ := he
    rw [getModelDiff, List.mem_filterMap] at hcmem
    obtain ⟨pc, hpc, hf⟩ := hcmem
    have hf2 : (if some pc.2 = lookupAssoc S pc.1 then none
        else some (pc.1, some pc.2, lookupAssoc S pc.1)) = some c := hf
    by_cases hv : some pc.2 = lookupAssoc S pc.1
    · rw [if_pos hv] at hf2
      cases hf2
    · rw [if_neg hv] at hf2
      injection hf2 with hc2
      have hpath : e.fieldPath = pc.1 := by
        rw [← hgc, ← hc2]
        cases hlk : listKeys pc.1 <;> simp [DiffEntry.fieldPath, hlk]
      rw [hpath,
        lookupAssoc_of_mem_nodup C pc.1 pc.2 hC (by simpa using hpc)]
      exact fun hcon => hv hcon

/-- The `_LIST_DIFF_KEYS` table instantiated at its `rms.zones` binding, whose
declared key field is `name`; every other path is unregistered. -/
def zonesListKeys : String → Option (Rec → String) :=
  fun p => if p = "rms.zones" then some Rec.name else none

/-- A one-scalar-field snapshot used by the C6 witness. -/
def snapScalarA : Snapshot Rec := [("version", .scalar "1")]

/-- The same snapshot with a different scalar value. -/
def snapScalarB : Snapshot Rec := [("version", .scalar "2")]

/-- Witness for C6 (amended): the self-diff of a concrete snapshot is empty,
and every entry of a concrete non-trivial diff sits at a genuinely differing
field. -/
theorem c6_witness :
    getCacheDiff zonesListKeys snapScalarA snapScalarA = [] ∧
      ∀ e ∈ getCacheDiff zonesListKeys snapScalarA snapScalarB,
        lookupAssoc snapScalarA e.fieldPath ≠
          lookupAssoc snapScalarB e.fieldPath :=
  ⟨(c6_amended_sparse_diff zonesListKeys).1 snapScalarA (by decide),
   (c6_amended_sparse_diff zonesListKeys).2 snapScalarA snapScalarB (by decide)⟩

/-- A zone record named A. -/
def zoneA : Rec := ⟨"z1", "A"⟩

/-- A zone record named B. -/
def zoneB : Rec := ⟨"z2", "B"⟩

/-- Current snapshot: the zones list in one order. -/
def snapZonesCur : Snapshot Rec := [("rms.zones", .items [zoneA, zoneB])]

/-- Selected snapshot: the same zones in the opposite order. -/
def snapZonesSel : Snapshot Rec := [("rms.zones", .items [zoneB, zoneA])]

/-- Counterexample to C6 as stated: two genuinely different snapshots — the
same zone records in a different list order — produce a list-change entry
whose added, removed and updated sets are all empty, because the record keys
and per-key payloads coincide and `_build_list_diff` never returns `None`. -/
theorem c6_counterexample :
    snapZonesCur ≠ snapZonesSel ∧
      getCacheDiff zonesListKeys snapZonesCur snapZonesSel =
        [DiffEntry.listChange "rms.zones" ⟨[], [], []⟩] := by decide

/-! ## Restore coordinator

`ResourceService.restore_from_cache` delegates the restore sequence to the
project-directory accessor of the external fmu.settings library, whose body is
absent from the sources; the sequence below is modelled from the spec. -/

namespace RestoreSpec

/-- The state of one named resource: its cache revision list (oldest to
newest), the live resource content when one exists, and the in-memory cached
copy of the live resource. -/
structure ResState (γ : Type) where
  revisions : List (String × γ)
  live : Option γ
  memCached : Option γ
deriving DecidableEq

/-- The side effects a restore performs, in execution order. -/
inductive Effect (γ : Type) where
  | readRevision (revisionId : String)
  | validateContent
  | snapshotCurrent (c : γ)
  | overwriteLive (c : γ)
  | invalidateMemCache
deriving DecidableEq

/-- Caller-facing restore failures. -/
inductive RestoreError where
  | revisionNotFound
  | invalidCachedContent
deriving DecidableEq

/-- Modelled from the spec: `store_revision` appends a new revision and prunes
oldest-first once the per-resource cap is exceeded. -/
def storeRevision {γ : Type} (cap : Nat) (revs : List (String × γ))
    (revisionId : String) (c : γ) : List (String × γ) :=
  let revs2 := revs ++ [(revisionId, c)]
  if cap < revs2.length then revs2.drop (revs2.length - cap) else revs2

/-- Modelled from the spec: the restore sequence of the RestoreCoordinator —
read the target revision (`RevisionNotFound` propagates), validate it against
the resource schema (`InvalidCachedContent` aborts before any write), snapshot
the current live content into the cache when a live resource exists, overwrite
the live resource, and invalidate the in-memory cached copy.  `valid` is the
schema validator, `freshId` the generated id for the snapshot revision.  The
returned trace lists the performed side effects in order. -/
def restore {γ : Type} (valid : γ → Bool) (cap : Nat) (freshId : String)
    (st : ResState γ) (revisionId : String) :
    Except RestoreError Unit × ResState γ × List (Effect γ) :=
  match lookupAssoc st.revisions revisionId with
  | none => (.error .revisionNotFound, st, [.readRevision revisionId])
  | some c =>
      if valid c then
        match st.live with
        | some cur =>
            (.ok (),
             { revisions := storeRevision cap st.revisions freshId cur,
               live := some c, memCached := none },
             [.readRevision revisionId, .validateContent,
              .snapshotCurrent cur, .overwriteLive c, .invalidateMemCache])
        | none =>
            (.ok (),
             { st with live := some c, memCached := none },
             [.readRevision revisionId, .validateContent,
              .overwriteLive c, .invalidateMemCache])
      else
        (.error .invalidCachedContent, st,
         [.readRevision revisionId, .validateContent])

end RestoreSpec

/-- Claim C7: the restore sequence performs its side effects in exactly the
specified order — read, validate, snapshot of the current live content
(skipped without error when no live resource exists), overwrite, in-memory
invalidation — and a schema-validation failure returns `InvalidCachedContent`
with the whole resource state (live resource and cache revision list) left
unchanged: no partial snapshot precedes the abort. -/
theorem c7_restore_order_and_abort {γ : Type} (valid : γ → Bool) (cap : Nat)
    (freshId : String) (st : RestoreSpec.ResState γ) (revisionId : String)
    (c : γ) (hread : lookupAssoc st.revisions revisionId = some c) :
    (valid c = false →
      RestoreSpec.restore valid cap freshId st revisionId =
        (.error .invalidCachedContent, st,
         [.readRevision revisionId, .validateContent])) ∧
    (valid c = true →
      (RestoreSpec.restore valid cap freshId st revisionId).1 = .ok () ∧
      (RestoreSpec.restore valid cap freshId st revisionId).2.2 =
        [RestoreSpec.Effect.readRevision revisionId,
         RestoreSpec.Effect.validateContent] ++
          (match st.live with
           | some cur => [RestoreSpec.Effect.snapshotCurrent cur]
           | none => []) ++
          [RestoreSpec.Effect.overwriteLive c,
           RestoreSpec.Effect.invalidateMemCache] ∧
      (RestoreSpec.restore valid cap freshId st revisionId).2.1.live =
        some c) := by
  constructor
  · intro hv
    simp only [RestoreSpec.restore, hread, hv]
    rfl
  · intro hv
    simp only [RestoreSpec.restore, hread, hv, if_true]
    cases st.live <;> simp

/-- Concrete resource state for the C7 witness: two revisions, a live
resource, and an in-memory cached copy.  Contents are numbers; the schema
accepts values at most 1, so revision r1 (content 0) validates and revision
r2 (content 5) does not. -/
def rstA : RestoreSpec.ResState Nat :=
  { revisions := [("r1", 0), ("r2", 5)], live := some 1, memCached := some 1 }

/-- Witness for C7: restoring the invalid revision aborts with
`InvalidCachedContent` leaving the state untouched, and restoring the valid
one succeeds. -/
theorem c7_witness :
    RestoreSpec.restore (fun n => decide (n ≤ 1)) 10 "r3" rstA "r2" =
      (.error .invalidCachedContent, rstA,
       [.readRevision "r2", .validateContent]) ∧
    (RestoreSpec.restore (fun n => decide (n ≤ 1)) 10 "r3" rstA "r1").1 =
      .ok () :=
  ⟨(c7_restore_order_and_abort (fun n => decide (n ≤ 1)) 10 "r3" rstA "r2" 5
      (by decide)).1 (by decide),
   ((c7_restore_order_and_abort (fun n => decide (n ≤ 1)) 10 "r3" rstA "r1" 0
      (by decide)).2 (by decide)).1⟩

/-! ## Project attach with lock handling

The lock-aware parts of `add_fmu_project_to_session` (acquire attempt, release
of a previously attached project's lock, the `lock_errors` record) are
referenced by the services and asserted by the repository's tests but their
bodies are absent from the sources; they are modelled from the spec below.
`ProjectService.get_project_data` is embedded from the sources. -/

namespace AttachSpec

/-- Modelled from the spec: last observed error strings for the
acquire/release/refresh lock operations. -/
structure LockErrors where
  acquire : Option String
  release : Option String
  refresh : Option String
deriving DecidableEq

/-- Modelled from the spec: a stored record — a plain session, or a project
session carrying the attached project handle, whether the ProjectLock is held
(as `is_acquired` reports) and the recorded lock errors. -/
inductive SpecStored where
  | plain (s : Session)
  | project (s : Session) (projectFmuDirectory : Nat) (lockAcquired : Bool)
      (lockErrors : LockErrors)
deriving DecidableEq

/-- The session fields of a stored record. -/
def SpecStored.base : SpecStored → Session
  | .plain s => s
  | .project s _ _ _ => s

/-- Modelled from the spec: when the session already holds a different
project, its lock is released first, best-effort; a failure string is
recorded, not raised. -/
def prevReleaseError (s0 : SpecStored) (proj : Nat)
    (releaseErr : Option String) : Option String :=
  match s0 with
  | .project _ p _ _ => if p ≠ proj then releaseErr else none
  | .plain _ => none

/-- Modelled from the spec: `attach_project`.  The session is looked up
(`SessionNotFound` when absent); a previously attached different project's
lock is released best-effort; `ProjectLock.acquire()` is attempted on the new
project — `acquireErr = none` means success, `some reason` the recorded
failure — and the ProjectSession is created or updated and stored in every
case, with `is_acquired` false and `lock_errors.acquire` holding the reason on
failure. -/
def attachProject (st : List (String × SpecStored)) (sessionId : String)
    (now : Int) (proj : Nat) (acquireErr : Option String)
    (releaseErr : Option String) :
    Except SessionErr (SpecStored × List (String × SpecStored)) :=
  match lookupAssoc st sessionId with
  | none => .error .sessionNotFound
  | some s0 =>
      let rec2 := SpecStored.project { s0.base with lastAccessed := now } proj
        acquireErr.isNone
        ⟨acquireErr, prevReleaseError s0 proj releaseErr, none⟩
      .ok (rec2, storeAssoc st sessionId rec2)

/-- The project data assembled by `ProjectService.get_project_data`
(src/fmu_settings_api/services/project.py): the read-only flag is the negation
of `ProjectLock.is_acquired()`. -/
structure FMUProjectData where
  path : Nat
  isReadOnly : Bool
deriving DecidableEq

/-- `get_project_data`: `is_read_only = not self._fmu_dir._lock.is_acquired()`. -/
def getProjectData (proj : Nat) (lockAcquired : Bool) : FMUProjectData :=
  { path := proj, isReadOnly := !lockAcquired }

end AttachSpec

/-- Claim C4: on a session present in the store, an attach whose
`ProjectLock.acquire` fails with some reason still succeeds — no error reaches
the caller — and creates/stores a ProjectSession whose lock is not held, whose
`lock_errors.acquire` retains the reason, and whose project data reports
`is_read_only = true` (the negation of `is_acquired`). -/
theorem c4_attach_acquire_failure_nonfatal
    (st : List (String × AttachSpec.SpecStored)) (sessionId : String)
    (now : Int) (proj : Nat) (reason : String) (releaseErr : Option String)
    (s0 : AttachSpec.SpecStored)
    (h : lookupAssoc st sessionId = some s0) :
    ∃ b errs,
      AttachSpec.attachProject st sessionId now proj (some reason) releaseErr =
          .ok (.project b proj false errs,
               storeAssoc st sessionId (.project b proj false errs)) ∧
        errs.acquire = some reason ∧
        (AttachSpec.getProjectData proj false).isReadOnly = true ∧
        lookupAssoc
            (storeAssoc st sessionId
              (AttachSpec.SpecStored.project b proj false errs)) sessionId =
          some (.project b proj false errs) := by
  refine ⟨{ s0.base with lastAccessed := now },
    ⟨some reason, AttachSpec.prevReleaseError s0 proj releaseErr, none⟩,
    ?_, rfl, rfl, lookupAssoc_storeAssoc_self st sessionId _⟩
  simp only [AttachSpec.attachProject, h]
  rfl

/-- A plain session record stored under sid0, for the C4 witness. -/
def specStoredA : AttachSpec.SpecStored := .plain sessA

/-- The token store used by the C4 witness. -/
def stAttach : List (String × AttachSpec.SpecStored) := [("sid0", specStoredA)]

/-- Witness for C4: a concrete attach at time 5 of project 9 whose lock
acquisition fails with reason "locked elsewhere" still returns a stored
read-only ProjectSession retaining the reason. -/
theorem c4_witness :
    ∃ b errs,
      AttachSpec.attachProject stAttach "sid0" 5 9 (some "locked elsewhere")
            none =
          .ok (.project b 9 false errs,
               storeAssoc stAttach "sid0" (.project b 9 false errs)) ∧
        errs.acquire = some "locked elsewhere" ∧
        (AttachSpec.getProjectData 9 false).isReadOnly = true ∧
        lookupAssoc
            (storeAssoc stAttach "sid0"
              (AttachSpec.SpecStored.project b 9 false errs)) "sid0" =
          some (.project b 9 false errs) :=
  c4_attach_acquire_failure_nonfatal stAttach "sid0" 5 9 "locked elsewhere"
    none specStoredA (by decide)

/-! ## Access tokens

`add_access_token_to_session` is referenced by the route and services and
asserted by the repository's tests but its body is absent from the sources; it
is modelled from the spec: a small fixed set of named third-party access-token
slots (one per external API client: SMDA and Sumo), each optional, overwrite
allowed, and an unrecognized slot name fails without modifying the set. -/

namespace TokenSpec

/-- Token-write failures. -/
inductive TokenError where
  | unknownTokenId
  | sessionNotFound
deriving DecidableEq

/-- Modelled from the spec: the session's fixed access-token slots. -/
structure AccessTokens where
  smda_api : Option String
  sumo_api : Option String
deriving DecidableEq

/-- The fixed recognized slot names. -/
def knownTokenIds : List String := ["smda_api", "sumo_api"]

/-- Modelled from the spec: store a secret in the slot named by `tokenId`,
replacing any previous value; an unrecognized name fails with
`UnknownTokenId`. -/
def setToken (t : AccessTokens) (tokenId : String) (secret : String) :
    Except TokenError AccessTokens :=
  if tokenId = "smda_api" then .ok { t with smda_api := some secret }
  else if tokenId = "sumo_api" then .ok { t with sumo_api := some secret }
  else .error .unknownTokenId

/-- Read the slot named by `tokenId`. -/
def getSlot (t : AccessTokens) (tokenId : String) : Option String :=
  if tokenId = "smda_api" then t.smda_api
  else if tokenId = "sumo_api" then t.sumo_api
  else none

/-- Modelled from the spec: `set_access_token` against the session store —
look the session's token set up and apply `setToken`; on failure the store is
left as it was. -/
def addAccessTokenToSession (st : List (String × AccessTokens))
    (sessionId tokenId secret : String) :
    Except TokenError Unit × List (String × AccessTokens) :=
  match lookupAssoc st sessionId with
  | none => (.error .sessionNotFound, st)
  | some t =>
      match setToken t tokenId secret with
      | .error e => (.error e, st)
      | .ok t2 => (.ok (), storeAssoc st sessionId t2)

end TokenSpec

/-- Claim C8: for a stored session, a token write with an unrecognized id
fails with `UnknownTokenId` and leaves the store unmodified; with a recognized
id it succeeds and stores the secret in that slot, replacing any previous
value, leaving the other slots as they were. -/
theorem c8_set_access_token (st : List (String × TokenSpec.AccessTokens))
    (sessionId tokenId secret : String) (t : TokenSpec.AccessTokens)
    (h : lookupAssoc st sessionId = some t) :
    (tokenId ∉ TokenSpec.knownTokenIds →
      TokenSpec.addAccessTokenToSession st sessionId tokenId secret =
        (.error .unknownTokenId, st)) ∧
    (tokenId ∈ TokenSpec.knownTokenIds →
      ∃ t2,
        TokenSpec.addAccessTokenToSession st sessionId tokenId secret =
            (.ok (), storeAssoc st sessionId t2) ∧
          TokenSpec.getSlot t2 tokenId = some secret ∧
          ∀ oid, oid ≠ tokenId →
            TokenSpec.getSlot t2 oid = TokenSpec.getSlot t oid) := by
  constructor
  · intro hnot
    have h1 : tokenId ≠ "smda_api" := fun hc => hnot (by rw [hc]; simp [TokenSpec.knownTokenIds])
    have h2 : tokenId ≠ "sumo_api" := fun hc => hnot (by rw [hc]; simp [TokenSpec.knownTokenIds])
    simp [TokenSpec.addAccessTokenToSession, h, TokenSpec.setToken, h1, h2]
  · intro hmem
    rcases List.mem_cons.mp hmem with h1 | hrest
    · subst h1
      refine ⟨{ t with smda_api := some secret }, ?_, ?_, ?_⟩
      · simp [TokenSpec.addAccessTokenToSession, h, TokenSpec.setToken]
      · simp [TokenSpec.getSlot]
      · intro oid hne
        simp only [TokenSpec.getSlot, if_neg hne]
    · rcases List.mem_cons.mp hrest with h1 | habs
      · subst h1
        refine ⟨{ t with sumo_api := some secret }, ?_, ?_, ?_⟩
        · simp [TokenSpec.addAccessTokenToSession, h, TokenSpec.setToken]
        · simp [TokenSpec.getSlot]
        · intro oid hne
          simp only [TokenSpec.getSlot, if_neg hne]
      · cases habs

/-- A token set with an existing sumo value, for the C8 witness. -/
def tokensA : TokenSpec.AccessTokens := ⟨none, some "old"⟩

/-- The token store for the C8 witness. -/
def stTokens : List (String × TokenSpec.AccessTokens) := [("sid0", tokensA)]

/-- Witness for C8: writing to the unknown id "foo" fails leaving the store
unchanged; writing to "smda_api" succeeds, stores the secret and leaves the
other slot intact. -/
theorem c8_witness :
    TokenSpec.addAccessTokenToSession stTokens "sid0" "foo" "sec" =
        (.error .unknownTokenId, stTokens) ∧
      ∃ t2,
        TokenSpec.addAccessTokenToSession stTokens "sid0" "smda_api" "sec" =
            (.ok (), storeAssoc stTokens "sid0" t2) ∧
          TokenSpec.getSlot t2 "smda_api" = some "sec" ∧
          ∀ oid, oid ≠ "smda_api" →
            TokenSpec.getSlot t2 oid = TokenSpec.getSlot tokensA oid :=
  ⟨(c8_set_access_token stTokens "sid0" "foo" "sec" tokensA (by decide)).1
      (by decide),
   (c8_set_access_token stTokens "sid0" "smda_api" "sec" tokensA (by decide)).2
      (by decide)⟩

/-! ## Cache revision content (ResourceService.get_cache_content)

The `CacheContent` response model (src/fmu_settings_api/models/resource.py)
declares the single required field `content`; `get_cache_content`
(src/fmu_settings_api/services/resource.py) constructs it with the keyword
argument set {data}, so the pydantic validation — a required field must be
among the provided keyword arguments — fails, and the raised ValidationError
(a ValueError) is re-raised by the function's except clause. -/

/-- Failures `get_cache_content` propagates. -/
inductive CacheErr where
  | fileNotFound
  | validationError
deriving DecidableEq

/-- The `CacheContent` response model: one required field `content` holding
the parsed cached payload. -/
structure CacheContent (γ : Type) where
  content : γ

/-- Pydantic construction of `CacheContent` from keyword arguments: the
required field `content` must be provided, or validation fails. -/
def cacheContentOfKwargs {γ : Type} (kwargs : List (String × γ)) :
    Except CacheErr (CacheContent γ) :=
  match lookupAssoc kwargs "content" with
  | some v => .ok ⟨v⟩
  | none => .error .validationError

/-- `get_cache_content`: load the cached model (a missing file propagates) and
construct `CacheContent(data=cached_model.model_dump(...))` — the keyword
argument set is exactly {data}. -/
def getCacheContent {γ : Type} (cached : Option γ) :
    Except CacheErr (CacheContent γ) :=
  match cached with
  | none => .error .fileNotFound
  | some m => cacheContentOfKwargs [("data", m)]

/-- Claim C10: whenever the cached model loads successfully,
`get_cache_content` ends in the model validation error — `CacheContent` is
constructed with the keyword `data` while its single required field is
`content` — so the operation can never return a `CacheContent` value. -/
theorem c10_get_cache_content_never_returns {γ : Type} (m : γ) :
    getCacheContent (some m) = .error .validationError ∧
      ∀ c : CacheContent γ, getCacheContent (some m) ≠ .ok c := by
  refine ⟨rfl, fun c hcon => ?_⟩
  have h1 : getCacheContent (some m) =
      (.error .validationError : Except CacheErr (CacheContent γ)) := rfl
  rw [h1] at hcon
  exact Except.noConfusion hcon
